import Mathlib

/-!
# Password validation service: embedding and verified properties

A shallow embedding of the password validation core of the repository
(packages `domain`, `rules`, `application`, `metrics`, `handlers` and the
rule list assembled in `main`), followed by theorems about it.

Conventions of the embedding:

* a Go `string` holding text is a Lean `String`: `for _, char := range s`
  visits `s.data` (the code points, in order) and `len(s)` is
  `s.utf8ByteSize` (the number of bytes of the UTF-8 encoding). Strings are
  well-formed UTF-8, as every password decoded from a JSON request body is;
* a Go `error` is an `Option String`: `none` is `nil`, `some msg` is an error
  whose `Error()` text is `msg`;
* a Go `int` is an `Int`.
-/

set_option autoImplicit false

/-! ## Standard library pieces used by the rules -/

namespace unicode

/-- Modelled from the spec: the range tables of Go's standard `unicode`
package (`unicode.Digit`, `unicode.Lower`, `unicode.Upper`,
`unicode.White_Space`) are not part of the repository. They are taken as a
parameter: each field tells whether a code point above U+00FF is in the
table. -/
structure RangeTables where
  Digit : Char → Bool
  Lower : Char → Bool
  Upper : Char → Bool
  White_Space : Char → Bool

/-- The constant `unicode.MaxLatin1`. -/
def MaxLatin1 : Nat := 0xFF

/-- Modelled from the spec: `unicode.IsDigit` ("classified as a decimal
digit"). Up to U+00FF the digits are '0'..'9'; above, the table decides. -/
def IsDigit (T : RangeTables) (r : Char) : Bool :=
  if r.toNat ≤ MaxLatin1 then
    decide (0x30 ≤ r.toNat ∧ r.toNat ≤ 0x39)
  else
    T.Digit r

/-- Modelled from the spec: `unicode.IsLower` ("classified as lowercase
letter"). Up to U+00FF the lowercase letters are 'a'..'z', U+00B5,
U+00DF..U+00F6 and U+00F8..U+00FF; above, the table decides. -/
def IsLower (T : RangeTables) (r : Char) : Bool :=
  if r.toNat ≤ MaxLatin1 then
    decide ((0x61 ≤ r.toNat ∧ r.toNat ≤ 0x7A) ∨ r.toNat = 0xB5 ∨
      (0xDF ≤ r.toNat ∧ r.toNat ≤ 0xF6) ∨ (0xF8 ≤ r.toNat ∧ r.toNat ≤ 0xFF))
  else
    T.Lower r

/-- Modelled from the spec: `unicode.IsUpper` ("classified as uppercase
letter"). Up to U+00FF the uppercase letters are 'A'..'Z', U+00C0..U+00D6
and U+00D8..U+00DE; above, the table decides. -/
def IsUpper (T : RangeTables) (r : Char) : Bool :=
  if r.toNat ≤ MaxLatin1 then
    decide ((0x41 ≤ r.toNat ∧ r.toNat ≤ 0x5A) ∨
      (0xC0 ≤ r.toNat ∧ r.toNat ≤ 0xD6) ∨ (0xD8 ≤ r.toNat ∧ r.toNat ≤ 0xDE))
  else
    T.Upper r

/-- Modelled from the spec: `unicode.IsSpace` ("whitespace code point"). Up
to U+00FF the white space is tab, line feed, vertical tab, form feed,
carriage return, space, U+0085 and U+00A0; above, the table decides. -/
def IsSpace (T : RangeTables) (r : Char) : Bool :=
  if r.toNat ≤ MaxLatin1 then
    decide (r.toNat = 0x09 ∨ r.toNat = 0x0A ∨ r.toNat = 0x0B ∨ r.toNat = 0x0C ∨
      r.toNat = 0x0D ∨ r.toNat = 0x20 ∨ r.toNat = 0x85 ∨ r.toNat = 0xA0)
  else
    T.White_Space r

/-- The range tables with no entry above U+00FF. On a password whose code
points are all at most U+00FF the tables are never consulted, so the rules
behave there as with any other tables. -/
def Latin1Only : RangeTables :=
  { Digit := fun _ => false, Lower := fun _ => false,
    Upper := fun _ => false, White_Space := fun _ => false }

end unicode

namespace strings

/-- Modelled from the spec: `strings.ContainsRune(s, r)` of Go's standard
library, "reports whether the Unicode code point r is within s". -/
def ContainsRune (s : String) (r : Char) : Bool :=
  s.data.contains r

end strings

namespace fmt

/-- Modelled from the spec: the verb `%d` of Go's `fmt` applied to an `int`:
the decimal digits of the absolute value, preceded by `-` when negative. -/
def decimal (n : Int) : String :=
  match n with
  | Int.ofNat m => String.mk (Nat.toDigits 10 m)
  | Int.negSucc m => "-" ++ String.mk (Nat.toDigits 10 (m + 1))

end fmt

/-- The built-in `len` of a Go string: its number of bytes. -/
def len (s : String) : Int :=
  (s.utf8ByteSize : Int)

/-! ## Package `domain` -/

namespace domain

/-- The interface `PasswordValidator`: one method `Validate(password) error`. -/
structure PasswordValidator where
  Validate : String → Option String

end domain

/-! ## Package `rules` -/

namespace rules

/-- The rule `MinLengthValidator`, configured with the minimum length. -/
structure MinLengthValidator where
  minLength : Int

def NewMinLengthValidator (minLength : Int) : MinLengthValidator :=
  { minLength := minLength }

def MinLengthValidator.Validate (v : MinLengthValidator) (password : String) :
    Option String :=
  if len password < v.minLength then
    some ("password must have at least " ++ fmt.decimal v.minLength ++ " characters")
  else
    none

def ErrNoDigit : String := "password must contain at least one digit"

def ErrNoLowercase : String := "password must contain at least one lowercase letter"

def ErrNoUppercase : String := "password must contain at least one uppercase letter"

def ErrNoSpecialChar : String :=
  "password must contain at least one special character (!@#$%^&*()-+)"

def ErrDuplicateChar : String := "password must not contain repeated characters"

def ErrContainsWhitespace : String := "password must not contain whitespace characters"

/-- The rule `DigitValidator` (an empty struct). -/
structure DigitValidator where

def NewDigitValidator : DigitValidator := {}

/-- The loop of `DigitValidator.Validate` over the remaining code points. -/
def DigitValidator.scan (T : unicode.RangeTables) : List Char → Option String
  | [] => some ErrNoDigit
  | char :: rest => if unicode.IsDigit T char then none else DigitValidator.scan T rest

def DigitValidator.Validate (T : unicode.RangeTables) (_v : DigitValidator)
    (password : String) : Option String :=
  DigitValidator.scan T password.data

/-- The rule `LowercaseValidator` (an empty struct). -/
structure LowercaseValidator where

def NewLowercaseValidator : LowercaseValidator := {}

/-- The loop of `LowercaseValidator.Validate` over the remaining code points. -/
def LowercaseValidator.scan (T : unicode.RangeTables) : List Char → Option String
  | [] => some ErrNoLowercase
  | char :: rest => if unicode.IsLower T char then none else LowercaseValidator.scan T rest

def LowercaseValidator.Validate (T : unicode.RangeTables) (_v : LowercaseValidator)
    (password : String) : Option String :=
  LowercaseValidator.scan T password.data

/-- The rule `UppercaseValidator` (an empty struct). -/
structure UppercaseValidator where

def NewUppercaseValidator : UppercaseValidator := {}

/-- The loop of `UppercaseValidator.Validate` over the remaining code points. -/
def UppercaseValidator.scan (T : unicode.RangeTables) : List Char → Option String
  | [] => some ErrNoUppercase
  | char :: rest => if unicode.IsUpper T char then none else UppercaseValidator.scan T rest

def UppercaseValidator.Validate (T : unicode.RangeTables) (_v : UppercaseValidator)
    (password : String) : Option String :=
  UppercaseValidator.scan T password.data

/-- The rule `SpecialCharValidator`, configured with the allowed characters. -/
structure SpecialCharValidator where
  allowedChars : String

def NewSpecialCharValidator (allowedChars : String) : SpecialCharValidator :=
  { allowedChars := allowedChars }

/-- The loop of `SpecialCharValidator.Validate` over the remaining code points. -/
def SpecialCharValidator.scan (v : SpecialCharValidator) : List Char → Option String
  | [] => some ErrNoSpecialChar
  | char :: rest =>
    if strings.ContainsRune v.allowedChars char then none
    else SpecialCharValidator.scan v rest

def SpecialCharValidator.Validate (v : SpecialCharValidator) (password : String) :
    Option String :=
  SpecialCharValidator.scan v password.data

/-- The rule `NoDuplicatesValidator` (an empty struct). -/
structure NoDuplicatesValidator where

def NewNoDuplicatesValidator : NoDuplicatesValidator := {}

/-- The loop of `NoDuplicatesValidator.Validate` over the remaining code
points; `seen` is the map `map[rune]bool`, a missing key reading `false`. -/
def NoDuplicatesValidator.scan (T : unicode.RangeTables) :
    List Char → (Char → Bool) → Option String
  | [], _ => none
  | char :: rest, seen =>
    if unicode.IsSpace T char then some ErrContainsWhitespace
    else if seen char then some ErrDuplicateChar
    else NoDuplicatesValidator.scan T rest (fun k => if k = char then true else seen k)

def NoDuplicatesValidator.Validate (T : unicode.RangeTables) (_v : NoDuplicatesValidator)
    (password : String) : Option String :=
  NoDuplicatesValidator.scan T password.data (fun _ => false)

end rules

/-! ## Package `application` -/

namespace application

structure PasswordService where
  validators : List domain.PasswordValidator

def NewPasswordService (validators : List domain.PasswordValidator) : PasswordService :=
  { validators := validators }

structure ValidationResult where
  IsValid : Bool
  Errors : List String
deriving DecidableEq, Repr

/-- One iteration of the loop of `PasswordService.Validate`. The second
component logs the validators whose `Validate` has been called so far. -/
def PasswordService.Validate.step (password : String)
    (acc : ValidationResult × List domain.PasswordValidator)
    (validator : domain.PasswordValidator) :
    ValidationResult × List domain.PasswordValidator :=
  match validator.Validate password with
  | some err =>
    ({ IsValid := false, Errors := acc.1.Errors ++ [err] }, acc.2 ++ [validator])
  | none => (acc.1, acc.2 ++ [validator])

/-- The loop of `PasswordService.Validate` with its call log. -/
def PasswordService.Validate.run (s : PasswordService) (password : String) :
    ValidationResult × List domain.PasswordValidator :=
  s.validators.foldl (PasswordService.Validate.step password)
    ({ IsValid := true, Errors := [] }, [])

def PasswordService.Validate (s : PasswordService) (password : String) : ValidationResult :=
  (PasswordService.Validate.run s password).1

end application

/-! ## Package `main`: the standard rule list -/

namespace main

def MinPasswordLength : Int := 9

def AllowedSpecialChars : String := "!@#$%^&*()-+"

/-- The slice `validators` built in `main`: each rule seen through the
interface `domain.PasswordValidator`. -/
def validators (T : unicode.RangeTables) : List domain.PasswordValidator :=
  [ ⟨(rules.NewMinLengthValidator MinPasswordLength).Validate⟩,
    ⟨rules.NewDigitValidator.Validate T⟩,
    ⟨rules.NewLowercaseValidator.Validate T⟩,
    ⟨rules.NewUppercaseValidator.Validate T⟩,
    ⟨(rules.NewSpecialCharValidator AllowedSpecialChars).Validate⟩,
    ⟨rules.NewNoDuplicatesValidator.Validate T⟩ ]

/-- The service built in `main`. -/
def service (T : unicode.RangeTables) : application.PasswordService :=
  application.NewPasswordService (validators T)

end main

/-! ## Package `metrics` -/

namespace strings

/-- The search of `strings.Contains` over the code points of `s` that remain:
true when some suffix of them starts with `substr`. -/
def containsFrom (substr : List Char) : List Char → Bool
  | [] => substr.isEmpty
  | c :: rest => substr.isPrefixOf (c :: rest) || containsFrom substr rest

/-- Modelled from the spec: `strings.Contains(s, substr)` of Go's standard
library, "reports whether substr is within s" ("matching violation-message
keywords"). -/
def Contains (s substr : String) : Bool :=
  containsFrom substr.data s.data

end strings

namespace metrics

def extractRuleFromError (errMsg : String) : String :=
  if strings.Contains errMsg "characters" then "min_length"
  else if strings.Contains errMsg "digit" then "digit"
  else if strings.Contains errMsg "lowercase" then "lowercase"
  else if strings.Contains errMsg "uppercase" then "uppercase"
  else if strings.Contains errMsg "special character" then "special_char"
  else if strings.Contains errMsg "repeated" then "no_duplicates"
  else if strings.Contains errMsg "whitespace" then "no_whitespace"
  else "unknown"

/-- One `Inc()` on a counter vector of the package, with the label value it
is made under. -/
inductive Increment where
  | RequestsTotal (result : String)
  | ValidationErrorsTotal (rule : String)
deriving DecidableEq, Repr

/-- The function `RecordValidation`, as the list of counter increments it
makes, in order. -/
def RecordValidation (isValid : Bool) (errors : List String) : List Increment :=
  if isValid then
    [Increment.RequestsTotal "valid"]
  else
    Increment.RequestsTotal "invalid" ::
      errors.map (fun err => Increment.ValidationErrorsTotal (extractRuleFromError err))

end metrics

/-! ## Packages `models` and `handlers` -/

namespace models

structure ValidatePasswordRequest where
  Password : String
deriving DecidableEq, Repr

structure ValidatePasswordResponse where
  IsValid : Bool
  Errors : List String
deriving DecidableEq, Repr

structure ErrorResponse where
  Error : String
  Message : String
deriving DecidableEq, Repr

end models

namespace http

def StatusOK : Nat := 200

def StatusBadRequest : Nat := 400

/-- Modelled from the spec: `http.StatusText` of Go's standard library, on
the two status codes the handler uses; the empty string on the other codes
of this model. -/
def StatusText (code : Nat) : String :=
  if code = 200 then "OK"
  else if code = 400 then "Bad Request"
  else ""

end http

namespace handlers

structure PasswordHandler where
  service : application.PasswordService

def NewPasswordHandler (service : application.PasswordService) : PasswordHandler :=
  { service := service }

/-- Modelled from the spec: what `json.NewDecoder(r.Body).Decode(&req)` can
make of a request body. Either the body is unparsable (`Decode` returns an
error), or it is a JSON object in which the field `password` is absent
(`none`) or holds a string. -/
inductive RequestBody where
  | unparsable
  | object (password : Option String)
deriving DecidableEq, Repr

/-- Modelled from the spec: the decoding into `req`; `none` is a non-nil
error. An absent field leaves `req.Password` at its zero value `""`. -/
def Decode : RequestBody → Option models.ValidatePasswordRequest
  | RequestBody.unparsable => none
  | RequestBody.object none => some { Password := "" }
  | RequestBody.object (some p) => some { Password := p }

/-- The value handed to `sendJSON` for encoding. -/
inductive ResponseData where
  | validation (r : models.ValidatePasswordResponse)
  | error (e : models.ErrorResponse)
deriving DecidableEq, Repr

/-- What one run of the handler does: the status and the data written to the
`http.ResponseWriter`, the passwords on which `service.Validate` was called,
and the increments made by `metrics.RecordValidation`. The in-progress gauge
and the duration histogram are left out. -/
structure Exchange where
  status : Nat
  data : ResponseData
  validated : List String
  recorded : List metrics.Increment
deriving DecidableEq, Repr

def PasswordHandler.sendJSON (_h : PasswordHandler) (status : Nat) (data : ResponseData) :
    Exchange :=
  { status := status, data := data, validated := [], recorded := [] }

def PasswordHandler.sendError (h : PasswordHandler) (status : Nat) (message : String) :
    Exchange :=
  h.sendJSON status
    (ResponseData.error { Error := http.StatusText status, Message := message })

def PasswordHandler.ValidatePassword (h : PasswordHandler) (body : RequestBody) : Exchange :=
  match Decode body with
  | none => h.sendError http.StatusBadRequest "Invalid request body"
  | some req =>
    if req.Password = "" then
      h.sendError http.StatusBadRequest "Password field is required"
    else
      let result := h.service.Validate req.Password
      let recorded := metrics.RecordValidation result.IsValid result.Errors
      let written := h.sendJSON http.StatusOK
        (ResponseData.validation { IsValid := result.IsValid, Errors := result.Errors })
      { written with validated := [req.Password], recorded := recorded }

end handlers

/-! ## Calls on an explicit memory

The definitions above read a call of `Validate` as a function of its
arguments. The ones below follow the same code statement by statement on an
explicit memory, so that what a call finds in memory, left there by earlier
calls, is part of the input. -/

namespace memory

/-- The objects that the code allocates while validating: the maps made by
`make(map[rune]bool)` in the no-duplicates rule and the `ValidationResult`
values made by `&ValidationResult{...}` in the service. An address is a
number; `nextMap` and `nextResult` are the first addresses not yet
allocated. Below them the memory holds what earlier calls left; at and above
them it holds anything. -/
structure Heap where
  maps : Nat → Char → Bool
  nextMap : Nat
  results : Nat → application.ValidationResult
  nextResult : Nat

/-- The expression `make(map[rune]bool)`: a new, empty map at a fresh
address. -/
def Heap.makeMap (h : Heap) : Nat × Heap :=
  (h.nextMap,
    { h with
      maps := fun a => if a = h.nextMap then (fun _ => false) else h.maps a,
      nextMap := h.nextMap + 1 })

/-- The expression `seen[char]`. -/
def Heap.mapGet (h : Heap) (seen : Nat) (char : Char) : Bool :=
  h.maps seen char

/-- The statement `seen[char] = true`. -/
def Heap.mapSetTrue (h : Heap) (seen : Nat) (char : Char) : Heap :=
  { h with
    maps := fun a =>
      if a = seen then (fun k => if k = char then true else h.maps a k) else h.maps a }

/-- The expression `&ValidationResult{...}`: a new value at a fresh
address. -/
def Heap.newResult (h : Heap) (value : application.ValidationResult) : Nat × Heap :=
  (h.nextResult,
    { h with
      results := fun a => if a = h.nextResult then value else h.results a,
      nextResult := h.nextResult + 1 })

/-- The statement `result.IsValid = false`. -/
def Heap.setInvalid (h : Heap) (result : Nat) : Heap :=
  { h with
    results := fun a =>
      if a = result then { IsValid := false, Errors := (h.results a).Errors }
      else h.results a }

/-- The statement `result.Errors = append(result.Errors, err.Error())`. -/
def Heap.appendError (h : Heap) (result : Nat) (err : String) : Heap :=
  { h with
    results := fun a =>
      if a = result then
        { IsValid := (h.results a).IsValid, Errors := (h.results a).Errors ++ [err] }
      else h.results a }

end memory

namespace rules

/-- The loop of `NoDuplicatesValidator.Validate` on memory; `seen` is the
address of the map. -/
def NoDuplicatesValidator.scanOn (T : unicode.RangeTables) (seen : Nat) :
    List Char → memory.Heap → Option String × memory.Heap
  | [], h => (none, h)
  | char :: rest, h =>
    if unicode.IsSpace T char then (some ErrContainsWhitespace, h)
    else if h.mapGet seen char then (some ErrDuplicateChar, h)
    else NoDuplicatesValidator.scanOn T seen rest (h.mapSetTrue seen char)

/-- The method `NoDuplicatesValidator.Validate` on memory: it makes its map,
then scans. -/
def NoDuplicatesValidator.ValidateOn (T : unicode.RangeTables) (_v : NoDuplicatesValidator)
    (password : String) (h : memory.Heap) : Option String × memory.Heap :=
  let made := h.makeMap
  NoDuplicatesValidator.scanOn T made.1 password.data made.2

/-- A value of the interface `domain.PasswordValidator` whose dynamic type is
one of the six rules of the package. -/
inductive Rule where
  | minLength (v : MinLengthValidator)
  | digit (v : DigitValidator)
  | lowercase (v : LowercaseValidator)
  | uppercase (v : UppercaseValidator)
  | specialChar (v : SpecialCharValidator)
  | noDuplicates (v : NoDuplicatesValidator)

/-- The call `validator.Validate(password)` dispatched on the dynamic type. -/
def Rule.Validate (T : unicode.RangeTables) : Rule → String → Option String
  | Rule.minLength v, password => v.Validate password
  | Rule.digit v, password => v.Validate T password
  | Rule.lowercase v, password => v.Validate T password
  | Rule.uppercase v, password => v.Validate T password
  | Rule.specialChar v, password => v.Validate password
  | Rule.noDuplicates v, password => v.Validate T password

/-- The call `validator.Validate(password)` on memory. The first five rules
allocate and write nothing; the no-duplicates rule works on its map. -/
def Rule.ValidateOn (T : unicode.RangeTables) :
    Rule → String → memory.Heap → Option String × memory.Heap
  | Rule.minLength v, password, h => (v.Validate password, h)
  | Rule.digit v, password, h => (v.Validate T password, h)
  | Rule.lowercase v, password, h => (v.Validate T password, h)
  | Rule.uppercase v, password, h => (v.Validate T password, h)
  | Rule.specialChar v, password, h => (v.Validate password, h)
  | Rule.noDuplicates v, password, h => v.ValidateOn T password h

/-- A rule seen through the interface `domain.PasswordValidator`. -/
def Rule.toValidator (T : unicode.RangeTables) (r : Rule) : domain.PasswordValidator :=
  { Validate := r.Validate T }

end rules

namespace application

/-- One iteration of the loop of `PasswordService.Validate` on memory;
`result` is the address of the `ValidationResult` of this call. -/
def PasswordService.ValidateOn.step (T : unicode.RangeTables) (password : String)
    (result : Nat) (h : memory.Heap) (validator : rules.Rule) : memory.Heap :=
  match validator.ValidateOn T password h with
  | (some err, h1) => (h1.setInvalid result).appendError result err
  | (none, h1) => h1

/-- The method `PasswordService.Validate` on memory, for a service whose
validators are rules of the package: the pointer it returns and the memory
it leaves. -/
def PasswordService.ValidateOn (T : unicode.RangeTables) (validators : List rules.Rule)
    (password : String) (h : memory.Heap) : Nat × memory.Heap :=
  let made := h.newResult { IsValid := true, Errors := [] }
  (made.1, validators.foldl (PasswordService.ValidateOn.step T password made.1) made.2)

/-- The calls of `Validate` on the passwords of a list, each on the memory
the previous one left: the memory after the last. -/
def PasswordService.ValidateOn.calls (T : unicode.RangeTables)
    (validators : List rules.Rule) : List String → memory.Heap → memory.Heap
  | [], h => h
  | p :: ps, h =>
    PasswordService.ValidateOn.calls T validators ps
      (PasswordService.ValidateOn T validators p h).2

end application

namespace main

/-- The slice `validators` built in `main`, as rules of the package. -/
def validatorRules : List rules.Rule :=
  [ rules.Rule.minLength (rules.NewMinLengthValidator MinPasswordLength),
    rules.Rule.digit rules.NewDigitValidator,
    rules.Rule.lowercase rules.NewLowercaseValidator,
    rules.Rule.uppercase rules.NewUppercaseValidator,
    rules.Rule.specialChar (rules.NewSpecialCharValidator AllowedSpecialChars),
    rules.Rule.noDuplicates rules.NewNoDuplicatesValidator ]

end main

/-! ## Auxiliary lemmas -/

namespace application

/-- The loop of `PasswordService.Validate`, started from any accumulator:
the flag is and-ed with "no rule reports", the messages of the reporting
rules are appended in order, and every validator is logged. -/
theorem validate_foldl_step (password : String)
    (R : List domain.PasswordValidator)
    (acc : ValidationResult × List domain.PasswordValidator) :
    R.foldl (PasswordService.Validate.step password) acc =
      ({ IsValid := acc.1.IsValid && R.all (fun v => (v.Validate password).isNone),
         Errors := acc.1.Errors ++ R.filterMap (fun v => v.Validate password) },
       acc.2 ++ R) := by
  induction R generalizing acc with
  | nil => simp
  | cons v R ih =>
    rw [List.foldl_cons, ih]
    unfold PasswordService.Validate.step
    cases h : v.Validate password <;> simp [h, List.filterMap_cons]

theorem validate_run_eq (R : List domain.PasswordValidator)
    (password : String) :
    PasswordService.Validate.run (NewPasswordService R) password =
      ({ IsValid := R.all (fun v => (v.Validate password).isNone),
         Errors := R.filterMap (fun v => v.Validate password) }, R) := by
  unfold PasswordService.Validate.run NewPasswordService
  rw [validate_foldl_step]
  simp

end application

/-! ## The validation engine -/

/-- Claim C1: the errors of `PasswordService.Validate` are exactly the
messages of the rules that report a violation, one per violating rule, in
rule order; and every rule of the list is called, in order, whatever the
earlier rules reported. -/
theorem C1_errors_are_violations_in_rule_order
    (R : List domain.PasswordValidator) (P : String) :
    ((application.NewPasswordService R).Validate P).Errors
        = R.filterMap (fun v => v.Validate P)
      ∧ (application.PasswordService.Validate.run
          (application.NewPasswordService R) P).2 = R := by
  unfold application.PasswordService.Validate
  rw [application.validate_run_eq]
  exact ⟨rfl, rfl⟩

/-- Claim C2: `IsValid` is true exactly when every rule of the list reports
no violation on the password. -/
theorem C2_valid_iff_all_rules_pass
    (R : List domain.PasswordValidator) (P : String) :
    ((application.NewPasswordService R).Validate P).IsValid = true
      ↔ ∀ v ∈ R, v.Validate P = none := by
  unfold application.PasswordService.Validate
  rw [application.validate_run_eq]
  simp [List.all_eq_true]

/-- Claim C3: `IsValid` is true exactly when `Errors` is the empty list. -/
theorem C3_valid_iff_no_errors
    (R : List domain.PasswordValidator) (P : String) :
    ((application.NewPasswordService R).Validate P).IsValid = true
      ↔ ((application.NewPasswordService R).Validate P).Errors = [] := by
  unfold application.PasswordService.Validate
  rw [application.validate_run_eq]
  simp [List.all_eq_true, List.filterMap_eq_nil_iff]

/-! ## The rules -/

namespace rules

theorem digit_scan_eq_none (T : unicode.RangeTables) (cs : List Char) :
    DigitValidator.scan T cs = none ↔ ∃ c ∈ cs, unicode.IsDigit T c = true := by
  induction cs with
  | nil => simp [DigitValidator.scan]
  | cons c cs ih =>
    unfold DigitValidator.scan
    by_cases h : unicode.IsDigit T c = true <;> simp [h, ih]

theorem digit_scan_message (T : unicode.RangeTables) (cs : List Char) :
    DigitValidator.scan T cs = none ∨ DigitValidator.scan T cs = some ErrNoDigit := by
  induction cs with
  | nil => simp [DigitValidator.scan]
  | cons c cs ih =>
    unfold DigitValidator.scan
    by_cases h : unicode.IsDigit T c = true <;> simp [h, ih]

theorem lowercase_scan_eq_none (T : unicode.RangeTables) (cs : List Char) :
    LowercaseValidator.scan T cs = none ↔ ∃ c ∈ cs, unicode.IsLower T c = true := by
  induction cs with
  | nil => simp [LowercaseValidator.scan]
  | cons c cs ih =>
    unfold LowercaseValidator.scan
    by_cases h : unicode.IsLower T c = true <;> simp [h, ih]

theorem lowercase_scan_message (T : unicode.RangeTables) (cs : List Char) :
    LowercaseValidator.scan T cs = none ∨
      LowercaseValidator.scan T cs = some ErrNoLowercase := by
  induction cs with
  | nil => simp [LowercaseValidator.scan]
  | cons c cs ih =>
    unfold LowercaseValidator.scan
    by_cases h : unicode.IsLower T c = true <;> simp [h, ih]

theorem uppercase_scan_eq_none (T : unicode.RangeTables) (cs : List Char) :
    UppercaseValidator.scan T cs = none ↔ ∃ c ∈ cs, unicode.IsUpper T c = true := by
  induction cs with
  | nil => simp [UppercaseValidator.scan]
  | cons c cs ih =>
    unfold UppercaseValidator.scan
    by_cases h : unicode.IsUpper T c = true <;> simp [h, ih]

theorem uppercase_scan_message (T : unicode.RangeTables) (cs : List Char) :
    UppercaseValidator.scan T cs = none ∨
      UppercaseValidator.scan T cs = some ErrNoUppercase := by
  induction cs with
  | nil => simp [UppercaseValidator.scan]
  | cons c cs ih =>
    unfold UppercaseValidator.scan
    by_cases h : unicode.IsUpper T c = true <;> simp [h, ih]

theorem special_char_scan_eq_none (v : SpecialCharValidator) (cs : List Char) :
    SpecialCharValidator.scan v cs = none ↔ ∃ c ∈ cs, c ∈ v.allowedChars.data := by
  induction cs with
  | nil => simp [SpecialCharValidator.scan]
  | cons c cs ih =>
    unfold SpecialCharValidator.scan
    by_cases h : c ∈ v.allowedChars.data <;> simp [h, ih, strings.ContainsRune]

theorem special_char_scan_message (v : SpecialCharValidator) (cs : List Char) :
    SpecialCharValidator.scan v cs = none ∨
      SpecialCharValidator.scan v cs = some ErrNoSpecialChar := by
  induction cs with
  | nil => simp [SpecialCharValidator.scan]
  | cons c cs ih =>
    unfold SpecialCharValidator.scan
    by_cases h : c ∈ v.allowedChars.data <;> simp [h, ih, strings.ContainsRune]

/-- The loop of the no-duplicates rule ends without a violation exactly when
the remaining code points are pairwise distinct, none is white space and
none is already in `seen`. -/
theorem no_duplicates_scan_eq_none (T : unicode.RangeTables) (cs : List Char)
    (seen : Char → Bool) :
    NoDuplicatesValidator.scan T cs seen = none ↔
      cs.Nodup ∧ (∀ c ∈ cs, unicode.IsSpace T c = false) ∧ (∀ c ∈ cs, seen c = false) := by
  induction cs generalizing seen with
  | nil => simp [NoDuplicatesValidator.scan]
  | cons c cs ih =>
    unfold NoDuplicatesValidator.scan
    by_cases hs : unicode.IsSpace T c = true
    · simp [hs]
    · by_cases hd : seen c = true
      · simp [hs, hd]
      · simp only [hs, hd, if_false, Bool.false_eq_true, ih, List.nodup_cons,
          List.forall_mem_cons]
        constructor
        · rintro ⟨hn, hsp, hseen⟩
          refine ⟨⟨?_, hn⟩, ⟨trivial, hsp⟩, ⟨trivial, ?_⟩⟩
          · intro hmem
            have := hseen c hmem
            simp at this
          · intro k hk
            have := hseen k hk
            by_cases hkc : k = c
            · simp [hkc] at this
            · simpa [hkc] using this
        · rintro ⟨⟨hnot, hn⟩, ⟨_, hsp⟩, ⟨_, hseen⟩⟩
          refine ⟨hn, hsp, ?_⟩
          intro k hk
          have hkc : k ≠ c := fun h => hnot (h ▸ hk)
          simp [hkc, hseen k hk]

end rules

/-- Claim C4: the no-duplicates rule reports no violation exactly when the
code points of the password are pairwise distinct and none of them is white
space. Code points are compared exactly ("aA" has no repeat), and the empty
password passes. -/
theorem C4_no_duplicates_iff_distinct_and_no_space
    (T : unicode.RangeTables) (P : String) :
    (rules.NewNoDuplicatesValidator.Validate T P = none
        ↔ P.data.Nodup ∧ ∀ c ∈ P.data, unicode.IsSpace T c = false)
      ∧ rules.NewNoDuplicatesValidator.Validate T "" = none
      ∧ rules.NewNoDuplicatesValidator.Validate T "aA" = none := by
  refine ⟨?_, rfl, rfl⟩
  unfold rules.NoDuplicatesValidator.Validate
  rw [rules.no_duplicates_scan_eq_none]
  simp

/-- Claim C5: each of the digit, lowercase and uppercase rules reports no
violation exactly when some code point of the password is classified as a
decimal digit, a lowercase letter, an uppercase letter respectively; when it
reports, the message is the fixed message of the rule. -/
theorem C5_presence_rules_iff_exists (T : unicode.RangeTables) (P : String) :
    ((rules.NewDigitValidator.Validate T P = none
          ↔ ∃ c ∈ P.data, unicode.IsDigit T c = true)
        ∧ (rules.NewDigitValidator.Validate T P ≠ none →
            rules.NewDigitValidator.Validate T P
              = some "password must contain at least one digit"))
      ∧ ((rules.NewLowercaseValidator.Validate T P = none
          ↔ ∃ c ∈ P.data, unicode.IsLower T c = true)
        ∧ (rules.NewLowercaseValidator.Validate T P ≠ none →
            rules.NewLowercaseValidator.Validate T P
              = some "password must contain at least one lowercase letter"))
      ∧ ((rules.NewUppercaseValidator.Validate T P = none
          ↔ ∃ c ∈ P.data, unicode.IsUpper T c = true)
        ∧ (rules.NewUppercaseValidator.Validate T P ≠ none →
            rules.NewUppercaseValidator.Validate T P
              = some "password must contain at least one uppercase letter")) := by
  refine ⟨⟨?_, ?_⟩, ⟨?_, ?_⟩, ⟨?_, ?_⟩⟩
  · exact rules.digit_scan_eq_none T P.data
  · intro h
    exact (rules.digit_scan_message T P.data).resolve_left h
  · exact rules.lowercase_scan_eq_none T P.data
  · intro h
    exact (rules.lowercase_scan_message T P.data).resolve_left h
  · exact rules.uppercase_scan_eq_none T P.data
  · intro h
    exact (rules.uppercase_scan_message T P.data).resolve_left h

/-- Claim C6: the special-character rule configured with the set `S` reports
no violation exactly when some code point of the password is a code point of
`S`. With the standard set, the punctuation '_' and '.' is not in the set and
the passwords "abc123_" and "abc.123" are reported. -/
theorem C6_special_char_iff_member_of_set (S P : String) :
    ((rules.NewSpecialCharValidator S).Validate P = none
        ↔ ∃ c ∈ P.data, c ∈ S.data)
      ∧ (rules.NewSpecialCharValidator "!@#$%^&*()-+").Validate "abc123_" ≠ none
      ∧ (rules.NewSpecialCharValidator "!@#$%^&*()-+").Validate "abc.123" ≠ none := by
  refine ⟨?_, by decide, by decide⟩
  exact rules.special_char_scan_eq_none (rules.NewSpecialCharValidator S) P.data

/-- Claim C7: the minimum-length rule configured with `N` reports a violation
exactly when the number of bytes of the password is less than `N`; the
message is "password must have at least N characters" with `N` in decimal.
The count is not the number of code points: "ééééé" has 5 code points and 10
bytes and passes the rule configured with 9. -/
theorem C7_min_length_compares_byte_length (N : Int) (P : String) :
    ((rules.NewMinLengthValidator N).Validate P ≠ none ↔ (P.utf8ByteSize : Int) < N)
      ∧ ((rules.NewMinLengthValidator N).Validate P ≠ none →
          (rules.NewMinLengthValidator N).Validate P
            = some ("password must have at least " ++ fmt.decimal N ++ " characters"))
      ∧ (rules.NewMinLengthValidator 9).Validate "12345678"
          = some "password must have at least 9 characters"
      ∧ ("ééééé".length = 5 ∧ "ééééé".utf8ByteSize = 10
          ∧ (rules.NewMinLengthValidator 9).Validate "ééééé" = none) := by
  refine ⟨?_, ?_, by decide, by decide, by decide, by decide⟩
  · unfold rules.MinLengthValidator.Validate rules.NewMinLengthValidator len
    by_cases h : (P.utf8ByteSize : Int) < N <;> simp [h]
  · unfold rules.MinLengthValidator.Validate rules.NewMinLengthValidator len
    by_cases h : (P.utf8ByteSize : Int) < N <;> simp [h]

/-- Claim C8 (evaluation at the failing input): the standard rule set
declares "AbTp9!fé" valid although it has only 8 code points; its UTF-8
encoding has 9 bytes, which is what the minimum-length rule counts. -/
theorem C8_standard_rules_accept_eight_code_points (T : unicode.RangeTables) :
    ((main.service T).Validate "AbTp9!fé").IsValid = true
      ∧ "AbTp9!fé".length = 8
      ∧ "AbTp9!fé".utf8ByteSize = 9 :=
  ⟨rfl, rfl, rfl⟩

/-- Claim C9 (evaluation at the failing input): the special-character rule
configured with the set "#" reports "abc!" with the message naming the set
"!@#$%^&*()-+", not the message naming its own set "#". -/
theorem C9_special_char_message_names_fixed_set :
    (rules.NewSpecialCharValidator "#").Validate "abc!"
        = some "password must contain at least one special character (!@#$%^&*()-+)"
      ∧ (rules.NewSpecialCharValidator "#").Validate "abc!"
        ≠ some ("password must contain at least one special character (" ++ "#" ++ ")") := by
  constructor <;> decide

/-- Claim C10 as stated fails: the minimum-length rule configured with 0
reports no violation on the empty password. -/
theorem C10_counterexample_min_length_zero :
    (rules.NewMinLengthValidator 0).Validate "" = none := by
  decide

/-- Claim C10, amended: for every minimum length `N` of at least 1 and every
allowed set `S`, the empty password violates the minimum-length, digit,
lowercase, uppercase and special-character rules. -/
theorem C10_empty_password_violates_five_rules
    (T : unicode.RangeTables) (N : Int) (S : String) (hN : 1 ≤ N) :
    (rules.NewMinLengthValidator N).Validate "" ≠ none
      ∧ rules.NewDigitValidator.Validate T "" ≠ none
      ∧ rules.NewLowercaseValidator.Validate T "" ≠ none
      ∧ rules.NewUppercaseValidator.Validate T "" ≠ none
      ∧ (rules.NewSpecialCharValidator S).Validate "" ≠ none := by
  refine ⟨?_, ?_, ?_, ?_, ?_⟩
  · have h : len "" < N := by
      have : len "" = 0 := by decide
      omega
    simp [rules.MinLengthValidator.Validate, rules.NewMinLengthValidator, h]
  · simp [rules.DigitValidator.Validate, rules.DigitValidator.scan]
  · simp [rules.LowercaseValidator.Validate, rules.LowercaseValidator.scan]
  · simp [rules.UppercaseValidator.Validate, rules.UppercaseValidator.scan]
  · simp [rules.SpecialCharValidator.Validate, rules.SpecialCharValidator.scan]

/-- The amended claim C10 at the standard configuration: minimum length 9 and
the standard allowed set. -/
theorem C10_empty_password_violates_five_rules_witness :
    (1 : Int) ≤ 9
      ∧ ((rules.NewMinLengthValidator 9).Validate "" ≠ none
        ∧ rules.NewDigitValidator.Validate unicode.Latin1Only "" ≠ none
        ∧ rules.NewLowercaseValidator.Validate unicode.Latin1Only "" ≠ none
        ∧ rules.NewUppercaseValidator.Validate unicode.Latin1Only "" ≠ none
        ∧ (rules.NewSpecialCharValidator "!@#$%^&*()-+").Validate "" ≠ none) :=
  ⟨by decide,
    C10_empty_password_violates_five_rules unicode.Latin1Only 9 "!@#$%^&*()-+" (by decide)⟩

/-! ## Rule order -/

/-- Claim C11: two rule lists that are permutations of each other give, on
every password, the same `IsValid` and `Errors` lists that are permutations
of each other. -/
theorem C11_permuted_rules_same_verdict
    (R1 R2 : List domain.PasswordValidator) (P : String) (h : List.Perm R1 R2) :
    ((application.NewPasswordService R1).Validate P).IsValid
        = ((application.NewPasswordService R2).Validate P).IsValid
      ∧ List.Perm ((application.NewPasswordService R1).Validate P).Errors
          ((application.NewPasswordService R2).Validate P).Errors := by
  unfold application.PasswordService.Validate
  rw [application.validate_run_eq, application.validate_run_eq]
  refine ⟨?_, h.filterMap _⟩
  rw [Bool.eq_iff_iff]
  simp only [List.all_eq_true]
  exact ⟨fun H v hv => H v (h.mem_iff.mpr hv), fun H v hv => H v (h.mem_iff.mp hv)⟩

/-- The claim C11 on the standard rule list and the same list reversed, for
the password "aa". -/
theorem C11_permuted_rules_same_verdict_witness :
    List.Perm (main.validators unicode.Latin1Only)
        (main.validators unicode.Latin1Only).reverse
      ∧ (((application.NewPasswordService (main.validators unicode.Latin1Only)).Validate
            "aa").IsValid
          = ((application.NewPasswordService
              (main.validators unicode.Latin1Only).reverse).Validate "aa").IsValid
        ∧ List.Perm
            ((application.NewPasswordService (main.validators unicode.Latin1Only)).Validate
              "aa").Errors
            ((application.NewPasswordService
              (main.validators unicode.Latin1Only).reverse).Validate "aa").Errors) :=
  ⟨(List.reverse_perm _).symm,
    C11_permuted_rules_same_verdict _ _ "aa" (List.reverse_perm _).symm⟩

/-! ## Classification of messages for the metrics -/

namespace strings

theorem containsFrom_append_left (substr a b : List Char)
    (h : containsFrom substr b = true) : containsFrom substr (a ++ b) = true := by
  induction a with
  | nil => simpa using h
  | cons c a ih =>
    rw [List.cons_append]
    unfold containsFrom
    simp [ih]

theorem Contains_append_left (x y substr : String)
    (h : Contains y substr = true) : Contains (x ++ y) substr = true := by
  unfold Contains at *
  rw [String.data_append]
  exact containsFrom_append_left _ _ _ h

end strings

/-- Claim C12 (evaluation at the failing inputs): both messages of the
no-duplicates rule contain the keyword "characters", which is tested first,
so `extractRuleFromError` files both under "min_length"; neither
"no_duplicates" nor "no_whitespace" is returned. -/
theorem C12_no_duplicates_messages_filed_as_min_length :
    metrics.extractRuleFromError "password must not contain repeated characters"
        = "min_length"
      ∧ metrics.extractRuleFromError "password must not contain whitespace characters"
        = "min_length"
      ∧ rules.ErrDuplicateChar = "password must not contain repeated characters"
      ∧ rules.ErrContainsWhitespace = "password must not contain whitespace characters" := by
  refine ⟨by decide, by decide, rfl, rfl⟩

/-- Claim C13: `extractRuleFromError` returns "min_length" for the message of
the minimum-length rule, whatever the configured `N`, and "digit",
"lowercase", "uppercase", "special_char" for the fixed messages of the
digit, lowercase, uppercase and special-character rules. -/
theorem C13_messages_of_five_rules_classified (N : Int) (P : String) :
    metrics.extractRuleFromError
        ("password must have at least " ++ fmt.decimal N ++ " characters") = "min_length"
      ∧ ((rules.NewMinLengthValidator N).Validate P = none
        ∨ ((rules.NewMinLengthValidator N).Validate P).map metrics.extractRuleFromError
            = some "min_length")
      ∧ metrics.extractRuleFromError rules.ErrNoDigit = "digit"
      ∧ metrics.extractRuleFromError rules.ErrNoLowercase = "lowercase"
      ∧ metrics.extractRuleFromError rules.ErrNoUppercase = "uppercase"
      ∧ metrics.extractRuleFromError rules.ErrNoSpecialChar = "special_char" := by
  have key : metrics.extractRuleFromError
      ("password must have at least " ++ fmt.decimal N ++ " characters") = "min_length" := by
    have hc : strings.Contains
        ("password must have at least " ++ fmt.decimal N ++ " characters") "characters"
          = true :=
      strings.Contains_append_left _ _ _ (by decide)
    simp [metrics.extractRuleFromError, hc]
  refine ⟨key, ?_, by decide, by decide, by decide, by decide⟩
  unfold rules.MinLengthValidator.Validate rules.NewMinLengthValidator
  by_cases hlt : len P < N
  · right
    simp only [hlt, if_true, Option.map_some', key]
  · left
    simp [hlt]

/-! ## The standard rule set on the example passwords -/

/-- Claim C14: under the standard rule set the empty password is invalid and
its errors are the messages of the minimum-length, digit, lowercase,
uppercase and special-character rules, in that order; the no-duplicates rule
adds nothing. -/
theorem C14_empty_password_five_messages (T : unicode.RangeTables) :
    (main.service T).Validate ""
        = { IsValid := false,
            Errors := ["password must have at least 9 characters",
              "password must contain at least one digit",
              "password must contain at least one lowercase letter",
              "password must contain at least one uppercase letter",
              "password must contain at least one special character (!@#$%^&*()-+)"] }
      ∧ rules.NewNoDuplicatesValidator.Validate T "" = none :=
  ⟨rfl, rfl⟩

/-- Claim C15: under the standard rule set "AbTp9 fok" is invalid with
exactly two errors, the special-character message followed by the
whitespace message. -/
theorem C15_space_password_two_messages (T : unicode.RangeTables) :
    (main.service T).Validate "AbTp9 fok"
      = { IsValid := false,
          Errors := ["password must contain at least one special character (!@#$%^&*()-+)",
            "password must not contain whitespace characters"] } :=
  rfl

/-- Claim C16: the verdicts of the standard rule set on the example
passwords: validity and number of violations as in the table, and for the
passwords with one violation the message of that violation. -/
theorem C16_example_table (T : unicode.RangeTables) :
    (main.service T).Validate "AbTp9!fok" = { IsValid := true, Errors := [] }
      ∧ (main.service T).Validate "Abc123!@#" = { IsValid := true, Errors := [] }
      ∧ (((main.service T).Validate "aa").IsValid = false
        ∧ ((main.service T).Validate "aa").Errors.length = 5)
      ∧ (((main.service T).Validate "ab").IsValid = false
        ∧ ((main.service T).Validate "ab").Errors.length = 4)
      ∧ (((main.service T).Validate "AAAbbbCc").IsValid = false
        ∧ ((main.service T).Validate "AAAbbbCc").Errors.length = 4)
      ∧ (main.service T).Validate "AbTp9!foo"
          = { IsValid := false, Errors := ["password must not contain repeated characters"] }
      ∧ (main.service T).Validate "AbTp9!foA"
          = { IsValid := false, Errors := ["password must not contain repeated characters"] }
      ∧ (main.service T).Validate "abtp9!fok"
          = { IsValid := false,
              Errors := ["password must contain at least one uppercase letter"] }
      ∧ (main.service T).Validate "ABTP9!FOK"
          = { IsValid := false,
              Errors := ["password must contain at least one lowercase letter"] } :=
  ⟨rfl, rfl, ⟨rfl, rfl⟩, ⟨rfl, rfl⟩, ⟨rfl, rfl⟩, rfl, rfl, rfl, rfl⟩

/-! ## The HTTP handler -/

/-- Claim C17: when the request body is unparsable, or its password field is
absent or the empty string, the handler answers 400 with an error body,
does not call `PasswordService.Validate` and records no validation. -/
theorem C17_bad_request_skips_validation
    (h : handlers.PasswordHandler) (body : handlers.RequestBody)
    (hb : body = handlers.RequestBody.unparsable
      ∨ body = handlers.RequestBody.object none
      ∨ body = handlers.RequestBody.object (some "")) :
    (h.ValidatePassword body).status = 400
      ∧ (∃ e, (h.ValidatePassword body).data = handlers.ResponseData.error e)
      ∧ (h.ValidatePassword body).validated = []
      ∧ (h.ValidatePassword body).recorded = [] := by
  rcases hb with hb | hb | hb <;> subst hb <;>
    simp [handlers.PasswordHandler.ValidatePassword, handlers.Decode,
      handlers.PasswordHandler.sendError, handlers.PasswordHandler.sendJSON,
      http.StatusBadRequest]

/-- The claim C17 on the handler of the standard service and a body whose
password is the empty string. -/
theorem C17_bad_request_skips_validation_witness :
    (handlers.RequestBody.object (some "") = handlers.RequestBody.unparsable
        ∨ handlers.RequestBody.object (some "") = handlers.RequestBody.object none
        ∨ handlers.RequestBody.object (some "") = handlers.RequestBody.object (some ""))
      ∧ (((handlers.NewPasswordHandler (main.service unicode.Latin1Only)).ValidatePassword
            (handlers.RequestBody.object (some ""))).status = 400
        ∧ (∃ e, ((handlers.NewPasswordHandler (main.service unicode.Latin1Only)).ValidatePassword
            (handlers.RequestBody.object (some ""))).data = handlers.ResponseData.error e)
        ∧ ((handlers.NewPasswordHandler (main.service unicode.Latin1Only)).ValidatePassword
            (handlers.RequestBody.object (some ""))).validated = []
        ∧ ((handlers.NewPasswordHandler (main.service unicode.Latin1Only)).ValidatePassword
            (handlers.RequestBody.object (some ""))).recorded = []) :=
  ⟨Or.inr (Or.inr rfl),
    C17_bad_request_skips_validation _ _ (Or.inr (Or.inr rfl))⟩

/-- Claim C18: when the body decodes to a non-empty password `P`, the
handler answers 200 with a response whose `IsValid` and `Errors` are those
of `PasswordService.Validate(P)`, valid or not; `Validate` is called once,
on `P`. -/
theorem C18_non_empty_password_answers_verdict
    (h : handlers.PasswordHandler) (P : String) (hP : P ≠ "") :
    (h.ValidatePassword (handlers.RequestBody.object (some P))).status = 200
      ∧ (h.ValidatePassword (handlers.RequestBody.object (some P))).data
          = handlers.ResponseData.validation
              { IsValid := (h.service.Validate P).IsValid,
                Errors := (h.service.Validate P).Errors }
      ∧ (h.ValidatePassword (handlers.RequestBody.object (some P))).validated = [P] := by
  simp [handlers.PasswordHandler.ValidatePassword, handlers.Decode,
    handlers.PasswordHandler.sendJSON, http.StatusOK, hP]

/-- The claim C18 on the handler of the standard service and the invalid
password "aa". -/
theorem C18_non_empty_password_answers_verdict_witness :
    "aa" ≠ ""
      ∧ (((handlers.NewPasswordHandler (main.service unicode.Latin1Only)).ValidatePassword
            (handlers.RequestBody.object (some "aa"))).status = 200
        ∧ ((handlers.NewPasswordHandler (main.service unicode.Latin1Only)).ValidatePassword
            (handlers.RequestBody.object (some "aa"))).data
            = handlers.ResponseData.validation
                { IsValid :=
                    ((handlers.NewPasswordHandler
                      (main.service unicode.Latin1Only)).service.Validate "aa").IsValid,
                  Errors :=
                    ((handlers.NewPasswordHandler
                      (main.service unicode.Latin1Only)).service.Validate "aa").Errors }
        ∧ ((handlers.NewPasswordHandler (main.service unicode.Latin1Only)).ValidatePassword
            (handlers.RequestBody.object (some "aa"))).validated = ["aa"]) :=
  ⟨by decide, C18_non_empty_password_answers_verdict _ "aa" (by decide)⟩

/-! ## Which message the no-duplicates rule reports -/

namespace rules

theorem duplicate_message_ne_whitespace_message :
    ErrDuplicateChar ≠ ErrContainsWhitespace := by
  decide

theorem no_duplicates_scan_cases (T : unicode.RangeTables) (cs : List Char)
    (seen : Char → Bool) :
    NoDuplicatesValidator.scan T cs seen = none
      ∨ NoDuplicatesValidator.scan T cs seen = some ErrContainsWhitespace
      ∨ NoDuplicatesValidator.scan T cs seen = some ErrDuplicateChar := by
  induction cs generalizing seen with
  | nil => exact Or.inl rfl
  | cons c cs ih =>
    unfold NoDuplicatesValidator.scan
    by_cases hs : unicode.IsSpace T c = true
    · simp [hs]
    · by_cases hd : seen c = true
      · simp [hs, hd]
      · simpa [hs, hd] using ih _

/-- The loop of the no-duplicates rule ends on the whitespace message exactly
when the remaining code points split as `pre ++ c :: post` with `c` white
space and `pre` pairwise distinct, free of white space and not yet seen. -/
theorem no_duplicates_scan_whitespace_iff (T : unicode.RangeTables) (cs : List Char)
    (seen : Char → Bool) :
    NoDuplicatesValidator.scan T cs seen = some ErrContainsWhitespace ↔
      ∃ pre c post, cs = pre ++ c :: post ∧ unicode.IsSpace T c = true ∧ pre.Nodup
        ∧ (∀ x ∈ pre, unicode.IsSpace T x = false) ∧ (∀ x ∈ pre, seen x = false) := by
  induction cs generalizing seen with
  | nil => simp [NoDuplicatesValidator.scan]
  | cons c cs ih =>
    unfold NoDuplicatesValidator.scan
    by_cases hs : unicode.IsSpace T c = true
    · simp only [hs, if_true, true_iff]
      exact ⟨[], c, cs, rfl, hs, List.nodup_nil, by simp, by simp⟩
    · by_cases hd : seen c = true
      · simp only [hs, hd, if_true, if_false, Bool.false_eq_true, Option.some.injEq]
        constructor
        · intro h
          exact absurd h duplicate_message_ne_whitespace_message
        · rintro ⟨pre, x, post, heq, hx, _, _, hseen⟩
          cases pre with
          | nil =>
            simp only [List.nil_append, List.cons.injEq] at heq
            exact absurd (heq.1 ▸ hx) hs
          | cons p pre =>
            simp only [List.cons_append, List.cons.injEq] at heq
            have := hseen p (List.mem_cons_self _ _)
            rw [← heq.1] at this
            simp [this] at hd
      · simp only [hs, hd, if_false, Bool.false_eq_true, ih]
        constructor
        · rintro ⟨pre, x, post, heq, hx, hn, hsp, hseen⟩
          have hc : c ∉ pre := by
            intro hmem
            have := hseen c hmem
            simp at this
          refine ⟨c :: pre, x, post, by simp [heq], hx, List.nodup_cons.mpr ⟨hc, hn⟩, ?_, ?_⟩
          · intro y hy
            rcases List.mem_cons.mp hy with rfl | hy
            · simpa using hs
            · exact hsp y hy
          · intro y hy
            rcases List.mem_cons.mp hy with rfl | hy
            · simpa using hd
            · have := hseen y hy
              by_cases hyc : y = c
              · simp [hyc] at this
              · simpa [hyc] using this
        · rintro ⟨pre0, x, post, heq, hx, hn, hsp, hseen⟩
          cases pre0 with
          | nil =>
            simp only [List.nil_append, List.cons.injEq] at heq
            exact absurd (heq.1 ▸ hx) hs
          | cons p pre =>
            simp only [List.cons_append, List.cons.injEq] at heq
            obtain ⟨hcp, hcs⟩ := heq
            subst hcp
            have hn2 := List.nodup_cons.mp hn
            refine ⟨pre, x, post, hcs, hx, hn2.2, ?_, ?_⟩
            · intro y hy
              exact hsp y (List.mem_cons_of_mem _ hy)
            · intro y hy
              have hyc : y ≠ c := fun e => hn2.1 (e ▸ hy)
              simp [hyc, hseen y (List.mem_cons_of_mem _ hy)]

end rules

/-- Claim C20: the no-duplicates rule returns nothing or exactly one of its
two messages. It returns the whitespace message exactly when the password
has a white-space code point before which the code points are pairwise
distinct and free of white space, and the repeated-characters message
exactly when it reports a violation and there is no such code point. -/
theorem C20_first_disqualifying_position_decides
    (T : unicode.RangeTables) (P : String) :
    (rules.NewNoDuplicatesValidator.Validate T P = none
        ∨ rules.NewNoDuplicatesValidator.Validate T P
            = some "password must not contain whitespace characters"
        ∨ rules.NewNoDuplicatesValidator.Validate T P
            = some "password must not contain repeated characters")
      ∧ (rules.NewNoDuplicatesValidator.Validate T P
            = some "password must not contain whitespace characters"
          ↔ ∃ pre c post, P.data = pre ++ c :: post ∧ unicode.IsSpace T c = true
              ∧ pre.Nodup ∧ ∀ x ∈ pre, unicode.IsSpace T x = false)
      ∧ (rules.NewNoDuplicatesValidator.Validate T P
            = some "password must not contain repeated characters"
          ↔ rules.NewNoDuplicatesValidator.Validate T P ≠ none
              ∧ ¬ ∃ pre c post, P.data = pre ++ c :: post ∧ unicode.IsSpace T c = true
                  ∧ pre.Nodup ∧ ∀ x ∈ pre, unicode.IsSpace T x = false) := by
  have hcases := rules.no_duplicates_scan_cases T P.data (fun _ => false)
  have hw : rules.NewNoDuplicatesValidator.Validate T P = some rules.ErrContainsWhitespace
      ↔ ∃ pre c post, P.data = pre ++ c :: post ∧ unicode.IsSpace T c = true
          ∧ pre.Nodup ∧ ∀ x ∈ pre, unicode.IsSpace T x = false := by
    unfold rules.NoDuplicatesValidator.Validate
    rw [rules.no_duplicates_scan_whitespace_iff]
    simp
  refine ⟨hcases, hw, ?_⟩
  rw [← hw]
  constructor
  · intro h
    change rules.NewNoDuplicatesValidator.Validate T P = some rules.ErrDuplicateChar at h
    rw [h]
    refine ⟨by simp, ?_⟩
    intro h2
    exact rules.duplicate_message_ne_whitespace_message (Option.some.inj h2)
  · rintro ⟨hne, hnw⟩
    rcases hcases with h | h | h
    · exact absurd h hne
    · exact absurd h hnw
    · exact h

/-! ## Bounds and closure properties -/

/-- Claim C21: the number of errors is at most the number of rules; for the
standard rule set it is at most 6, and the password made of two spaces
reaches 6. -/
theorem C21_errors_at_most_number_of_rules
    (R : List domain.PasswordValidator) (T : unicode.RangeTables) (P : String) :
    ((application.NewPasswordService R).Validate P).Errors.length ≤ R.length
      ∧ ((main.service T).Validate P).Errors.length ≤ 6
      ∧ ((main.service T).Validate "  ").Errors.length = 6 := by
  have hle : ∀ R : List domain.PasswordValidator,
      ((application.NewPasswordService R).Validate P).Errors.length ≤ R.length := by
    intro R
    unfold application.PasswordService.Validate
    rw [application.validate_run_eq]
    exact List.length_filterMap_le _ _
  exact ⟨hle R, hle (main.validators T), rfl⟩

/-- Claim C22: the special-character rule built with the empty set is built
like any other (its set is the empty string) and reports a violation on
every password, so a rule list that contains it declares no password
valid. -/
theorem C22_empty_allowed_set_rejects_everything
    (R1 R2 : List domain.PasswordValidator) (P : String) :
    (rules.NewSpecialCharValidator "").allowedChars = ""
      ∧ (rules.NewSpecialCharValidator "").Validate P
          = some "password must contain at least one special character (!@#$%^&*()-+)"
      ∧ ((application.NewPasswordService
            (R1 ++ ⟨(rules.NewSpecialCharValidator "").Validate⟩ :: R2)).Validate P).IsValid
          = false := by
  have hv : (rules.NewSpecialCharValidator "").Validate P ≠ none := by
    intro h
    have := (rules.special_char_scan_eq_none (rules.NewSpecialCharValidator "") P.data).mp h
    simp [rules.NewSpecialCharValidator] at this
  refine ⟨rfl, ?_, ?_⟩
  · exact (rules.special_char_scan_message (rules.NewSpecialCharValidator "")
      P.data).resolve_left hv
  · unfold application.PasswordService.Validate
    rw [application.validate_run_eq]
    cases hres : (rules.NewSpecialCharValidator "").Validate P with
    | none => exact absurd hres hv
    | some msg => simp [hres]

/-- Claim C23: when the no-duplicates rule reports no violation on `P`, it
reports none on any `Q` whose code points are a subsequence of those of
`P`. -/
theorem C23_no_duplicates_closed_under_deletion
    (T : unicode.RangeTables) (P Q : String)
    (hP : rules.NewNoDuplicatesValidator.Validate T P = none)
    (hQ : List.Sublist Q.data P.data) :
    rules.NewNoDuplicatesValidator.Validate T Q = none := by
  unfold rules.NoDuplicatesValidator.Validate at *
  rw [rules.no_duplicates_scan_eq_none] at *
  obtain ⟨hn, hs, _⟩ := hP
  exact ⟨hn.sublist hQ, fun c hc => hs c (hQ.subset hc), fun _ _ => rfl⟩

/-- The claim C23 on "AbTp9!fok" and "Ap9fk", obtained by deleting four code
points. -/
theorem C23_no_duplicates_closed_under_deletion_witness :
    rules.NewNoDuplicatesValidator.Validate unicode.Latin1Only "AbTp9!fok" = none
      ∧ List.Sublist "Ap9fk".data "AbTp9!fok".data
      ∧ rules.NewNoDuplicatesValidator.Validate unicode.Latin1Only "Ap9fk" = none :=
  ⟨by decide, by decide,
    C23_no_duplicates_closed_under_deletion unicode.Latin1Only "AbTp9!fok" "Ap9fk"
      (by decide) (by decide)⟩

theorem len_append (P Q : String) : len (P ++ Q) = len P + len Q := by
  cases P with
  | mk a =>
    cases Q with
    | mk b =>
      show ((String.mk (a ++ b)).utf8ByteSize : Int)
        = ((String.mk a).utf8ByteSize : Int) + ((String.mk b).utf8ByteSize : Int)
      simp [String.utf8ByteSize_mk, String.utf8Len_append]

theorem len_nonneg (P : String) : 0 ≤ len P := by
  unfold len
  exact Int.ofNat_nonneg _

/-- Claim C24: each of the minimum-length, digit, lowercase, uppercase and
special-character rules that reports no violation on `P` reports none on
`P ++ Q` and on `Q ++ P`. -/
theorem C24_presence_and_length_rules_monotone
    (T : unicode.RangeTables) (N : Int) (S P Q : String) :
    ((rules.NewMinLengthValidator N).Validate P = none →
        (rules.NewMinLengthValidator N).Validate (P ++ Q) = none
          ∧ (rules.NewMinLengthValidator N).Validate (Q ++ P) = none)
      ∧ (rules.NewDigitValidator.Validate T P = none →
        rules.NewDigitValidator.Validate T (P ++ Q) = none
          ∧ rules.NewDigitValidator.Validate T (Q ++ P) = none)
      ∧ (rules.NewLowercaseValidator.Validate T P = none →
        rules.NewLowercaseValidator.Validate T (P ++ Q) = none
          ∧ rules.NewLowercaseValidator.Validate T (Q ++ P) = none)
      ∧ (rules.NewUppercaseValidator.Validate T P = none →
        rules.NewUppercaseValidator.Validate T (P ++ Q) = none
          ∧ rules.NewUppercaseValidator.Validate T (Q ++ P) = none)
      ∧ ((rules.NewSpecialCharValidator S).Validate P = none →
        (rules.NewSpecialCharValidator S).Validate (P ++ Q) = none
          ∧ (rules.NewSpecialCharValidator S).Validate (Q ++ P) = none) := by
  refine ⟨?_, ?_, ?_, ?_, ?_⟩
  · unfold rules.MinLengthValidator.Validate rules.NewMinLengthValidator
    intro h
    have hP : ¬ len P < N := by
      intro hlt
      simp [hlt] at h
    have hQ := len_nonneg Q
    have h1 : ¬ len (P ++ Q) < N := by rw [len_append]; omega
    have h2 : ¬ len (Q ++ P) < N := by rw [len_append]; omega
    simp [h1, h2]
  · unfold rules.DigitValidator.Validate
    simp only [rules.digit_scan_eq_none, String.data_append, List.mem_append]
    rintro ⟨c, hc, hd⟩
    exact ⟨⟨c, Or.inl hc, hd⟩, ⟨c, Or.inr hc, hd⟩⟩
  · unfold rules.LowercaseValidator.Validate
    simp only [rules.lowercase_scan_eq_none, String.data_append, List.mem_append]
    rintro ⟨c, hc, hd⟩
    exact ⟨⟨c, Or.inl hc, hd⟩, ⟨c, Or.inr hc, hd⟩⟩
  · unfold rules.UppercaseValidator.Validate
    simp only [rules.uppercase_scan_eq_none, String.data_append, List.mem_append]
    rintro ⟨c, hc, hd⟩
    exact ⟨⟨c, Or.inl hc, hd⟩, ⟨c, Or.inr hc, hd⟩⟩
  · unfold rules.SpecialCharValidator.Validate
    simp only [rules.special_char_scan_eq_none, String.data_append, List.mem_append]
    rintro ⟨c, hc, hd⟩
    exact ⟨⟨c, Or.inl hc, hd⟩, ⟨c, Or.inr hc, hd⟩⟩

/-- The claim C24 on the password "aB1!" extended by "xyz", with minimum
length 3 and the standard allowed set: every premise holds and every
conclusion follows. -/
theorem C24_presence_and_length_rules_monotone_witness :
    ((rules.NewMinLengthValidator 3).Validate "aB1!" = none
        ∧ rules.NewDigitValidator.Validate unicode.Latin1Only "aB1!" = none
        ∧ rules.NewLowercaseValidator.Validate unicode.Latin1Only "aB1!" = none
        ∧ rules.NewUppercaseValidator.Validate unicode.Latin1Only "aB1!" = none
        ∧ (rules.NewSpecialCharValidator "!@#$%^&*()-+").Validate "aB1!" = none)
      ∧ (((rules.NewMinLengthValidator 3).Validate ("aB1!" ++ "xyz") = none
          ∧ (rules.NewMinLengthValidator 3).Validate ("xyz" ++ "aB1!") = none)
        ∧ (rules.NewDigitValidator.Validate unicode.Latin1Only ("aB1!" ++ "xyz") = none
          ∧ rules.NewDigitValidator.Validate unicode.Latin1Only ("xyz" ++ "aB1!") = none)
        ∧ (rules.NewLowercaseValidator.Validate unicode.Latin1Only ("aB1!" ++ "xyz") = none
          ∧ rules.NewLowercaseValidator.Validate unicode.Latin1Only ("xyz" ++ "aB1!") = none)
        ∧ (rules.NewUppercaseValidator.Validate unicode.Latin1Only ("aB1!" ++ "xyz") = none
          ∧ rules.NewUppercaseValidator.Validate unicode.Latin1Only ("xyz" ++ "aB1!") = none)
        ∧ ((rules.NewSpecialCharValidator "!@#$%^&*()-+").Validate ("aB1!" ++ "xyz") = none
          ∧ (rules.NewSpecialCharValidator "!@#$%^&*()-+").Validate ("xyz" ++ "aB1!")
              = none)) :=
  have h := C24_presence_and_length_rules_monotone unicode.Latin1Only 3
    "!@#$%^&*()-+" "aB1!" "xyz"
  ⟨⟨by decide, by decide, by decide, by decide, by decide⟩,
    h.1 (by decide), h.2.1 (by decide), h.2.2.1 (by decide), h.2.2.2.1 (by decide),
    h.2.2.2.2 (by decide)⟩

/-! ## Repeated calls on memory -/

namespace rules

/-- The loop of the no-duplicates rule on memory returns what the loop on
the content of its map returns, and leaves the results in memory alone. -/
theorem no_duplicates_scanOn_spec (T : unicode.RangeTables) (seen : Nat)
    (cs : List Char) (h : memory.Heap) :
    (NoDuplicatesValidator.scanOn T seen cs h).1
        = NoDuplicatesValidator.scan T cs (h.maps seen)
      ∧ (NoDuplicatesValidator.scanOn T seen cs h).2.results = h.results
      ∧ (NoDuplicatesValidator.scanOn T seen cs h).2.nextResult = h.nextResult := by
  induction cs generalizing h with
  | nil => exact ⟨rfl, rfl, rfl⟩
  | cons c cs ih =>
    unfold NoDuplicatesValidator.scanOn NoDuplicatesValidator.scan
    by_cases hs : unicode.IsSpace T c = true
    · simp [hs]
    · by_cases hd : h.maps seen c = true
      · simp [hs, hd, memory.Heap.mapGet]
      · have key := ih (h.mapSetTrue seen c)
        have hmap : (h.mapSetTrue seen c).maps seen
            = fun k => if k = c then true else h.maps seen k := by
          simp [memory.Heap.mapSetTrue]
        rw [hmap] at key
        simpa [hs, hd, memory.Heap.mapGet, memory.Heap.mapSetTrue] using key

/-- A call of a rule on memory returns what the rule returns on the
password alone, whatever the memory holds, and leaves the results in memory
alone. -/
theorem rule_ValidateOn_spec (T : unicode.RangeTables) (r : Rule) (password : String)
    (h : memory.Heap) :
    (r.ValidateOn T password h).1 = r.Validate T password
      ∧ (r.ValidateOn T password h).2.results = h.results
      ∧ (r.ValidateOn T password h).2.nextResult = h.nextResult := by
  cases r with
  | minLength v => exact ⟨rfl, rfl, rfl⟩
  | digit v => exact ⟨rfl, rfl, rfl⟩
  | lowercase v => exact ⟨rfl, rfl, rfl⟩
  | uppercase v => exact ⟨rfl, rfl, rfl⟩
  | specialChar v => exact ⟨rfl, rfl, rfl⟩
  | noDuplicates v =>
    have key := no_duplicates_scanOn_spec T h.makeMap.1 password.data h.makeMap.2
    have hfresh : h.makeMap.2.maps h.makeMap.1 = fun _ => false := by
      simp [memory.Heap.makeMap]
    rw [hfresh] at key
    exact key

end rules

namespace application

theorem validateOn_step_spec (T : unicode.RangeTables) (password : String) (result : Nat)
    (h : memory.Heap) (v : rules.Rule) :
    (PasswordService.ValidateOn.step T password result h v).results result
        = { IsValid := (h.results result).IsValid && (v.Validate T password).isNone,
            Errors := (h.results result).Errors ++ (v.Validate T password).toList }
      ∧ (∀ a, a ≠ result →
          (PasswordService.ValidateOn.step T password result h v).results a = h.results a)
      ∧ (PasswordService.ValidateOn.step T password result h v).nextResult
          = h.nextResult := by
  obtain ⟨h1, h2, h3⟩ := rules.rule_ValidateOn_spec T v password h
  unfold PasswordService.ValidateOn.step
  rcases hcall : v.ValidateOn T password h with ⟨e, hp⟩
  rw [hcall] at h1 h2 h3
  simp only at h1 h2 h3
  rw [← h1]
  cases e with
  | none =>
    refine ⟨?_, ?_, ?_⟩
    · simp [h2]
    · intro a _
      simp [h2]
    · simpa using h3
  | some err =>
    refine ⟨?_, ?_, ?_⟩
    · simp [memory.Heap.appendError, memory.Heap.setInvalid, h2]
    · intro a ha
      simp [memory.Heap.appendError, memory.Heap.setInvalid, h2, ha]
    · simpa [memory.Heap.appendError, memory.Heap.setInvalid] using h3

theorem validateOn_foldl_spec (T : unicode.RangeTables) (password : String) (result : Nat)
    (R : List rules.Rule) (h : memory.Heap) :
    (R.foldl (PasswordService.ValidateOn.step T password result) h).results result
        = { IsValid := (h.results result).IsValid
              && R.all (fun v => (v.Validate T password).isNone),
            Errors := (h.results result).Errors
              ++ R.filterMap (fun v => v.Validate T password) }
      ∧ (∀ a, a ≠ result →
          (R.foldl (PasswordService.ValidateOn.step T password result) h).results a
            = h.results a)
      ∧ (R.foldl (PasswordService.ValidateOn.step T password result) h).nextResult
          = h.nextResult := by
  induction R generalizing h with
  | nil => simp
  | cons v R ih =>
    obtain ⟨s1, s2, s3⟩ := validateOn_step_spec T password result h v
    obtain ⟨i1, i2, i3⟩ := ih (PasswordService.ValidateOn.step T password result h v)
    rw [List.foldl_cons]
    refine ⟨?_, ?_, ?_⟩
    · rw [i1, s1]
      cases hv : v.Validate T password <;> simp [hv, List.filterMap_cons]
    · intro a ha
      rw [i2 a ha, s2 a ha]
    · rw [i3, s3]

theorem all_toValidator (T : unicode.RangeTables) (R : List rules.Rule)
    (password : String) :
    (R.map (rules.Rule.toValidator T)).all (fun v => (v.Validate password).isNone)
      = R.all (fun v => (v.Validate T password).isNone) := by
  induction R with
  | nil => rfl
  | cons r R ih => simp [List.all_cons, rules.Rule.toValidator, ih]

theorem filterMap_toValidator (T : unicode.RangeTables) (R : List rules.Rule)
    (password : String) :
    (R.map (rules.Rule.toValidator T)).filterMap (fun v => v.Validate password)
      = R.filterMap (fun v => v.Validate T password) := by
  induction R with
  | nil => rfl
  | cons r R ih => simp [List.filterMap_cons, rules.Rule.toValidator, ih]

/-- A call of `Validate` on memory returns a fresh pointer; the value it
points to is the verdict computed from the rule list and the password
alone; the results of earlier calls are left as they were. -/
theorem validateOn_spec (T : unicode.RangeTables) (R : List rules.Rule)
    (password : String) (h : memory.Heap) :
    (PasswordService.ValidateOn T R password h).1 = h.nextResult
      ∧ (PasswordService.ValidateOn T R password h).2.results h.nextResult
          = (NewPasswordService (R.map (rules.Rule.toValidator T))).Validate password
      ∧ (∀ a, a < h.nextResult →
          (PasswordService.ValidateOn T R password h).2.results a = h.results a)
      ∧ (PasswordService.ValidateOn T R password h).2.nextResult = h.nextResult + 1 := by
  obtain ⟨f1, f2, f3⟩ := validateOn_foldl_spec T password h.nextResult R
    (h.newResult { IsValid := true, Errors := [] }).2
  unfold PasswordService.ValidateOn
  refine ⟨rfl, ?_, ?_, ?_⟩
  · show (R.foldl (PasswordService.ValidateOn.step T password h.nextResult)
        (h.newResult { IsValid := true, Errors := [] }).2).results h.nextResult = _
    rw [f1]
    unfold PasswordService.Validate
    rw [validate_run_eq]
    rw [all_toValidator, filterMap_toValidator]
    simp [memory.Heap.newResult]
  · intro a ha
    show (R.foldl (PasswordService.ValidateOn.step T password h.nextResult)
        (h.newResult { IsValid := true, Errors := [] }).2).results a = _
    rw [f2 a (Nat.ne_of_lt ha)]
    simp [memory.Heap.newResult, Nat.ne_of_lt ha]
  · show (R.foldl (PasswordService.ValidateOn.step T password h.nextResult)
        (h.newResult { IsValid := true, Errors := [] }).2).nextResult = _
    rw [f3]
    rfl

/-- A sequence of calls leaves the results of earlier calls as they were. -/
theorem validateOn_calls_spec (T : unicode.RangeTables) (R : List rules.Rule)
    (ps : List String) (h : memory.Heap) :
    h.nextResult ≤ (PasswordService.ValidateOn.calls T R ps h).nextResult
      ∧ (∀ a, a < h.nextResult →
          (PasswordService.ValidateOn.calls T R ps h).results a = h.results a) := by
  induction ps generalizing h with
  | nil => exact ⟨Nat.le_refl _, fun _ _ => rfl⟩
  | cons p ps ih =>
    obtain ⟨_, _, c3, c4⟩ := validateOn_spec T R p h
    obtain ⟨i1, i2⟩ := ih (PasswordService.ValidateOn T R p h).2
    unfold PasswordService.ValidateOn.calls
    refine ⟨by omega, ?_⟩
    intro a ha
    rw [i2 a (by omega), c3 a ha]

end application

/-- The loop of the no-duplicates rule does read memory: on a map that
already holds 'a' it reports "a", which the rule passes. Only the fresh map
made at the start of each call keeps earlier calls out of the verdict. -/
theorem no_duplicates_scanOn_reads_memory (T : unicode.RangeTables) :
    (rules.NoDuplicatesValidator.scanOn T 0 "a".data
        { maps := fun _ _ => true, nextMap := 1,
          results := fun _ => { IsValid := true, Errors := [] }, nextResult := 0 }).1
        = some rules.ErrDuplicateChar
      ∧ rules.NewNoDuplicatesValidator.Validate T "a" = none :=
  ⟨rfl, rfl⟩

/-- Claim C19: for a service whose validators are rules of the package, the
verdict of `Validate` depends on the rule list and the password only. On any
memory, the pointer returned points to the verdict computed from the two
alone. After a call on `P`, any calls in between and a second call on `P`,
the two pointers are different objects holding identical verdicts: the
second call returns what the first returned and does not disturb it. The
standard rule list of `main` is such a list. -/
theorem C19_verdict_depends_on_rules_and_password_only
    (T : unicode.RangeTables) (R : List rules.Rule) (P : String)
    (between : List String) (h0 : memory.Heap) :
    (application.PasswordService.ValidateOn T R P h0).2.results
          (application.PasswordService.ValidateOn T R P h0).1
        = (application.NewPasswordService (R.map (rules.Rule.toValidator T))).Validate P
      ∧ (application.PasswordService.ValidateOn T R P
            (application.PasswordService.ValidateOn.calls T R between
              (application.PasswordService.ValidateOn T R P h0).2)).2.results
          (application.PasswordService.ValidateOn T R P
            (application.PasswordService.ValidateOn.calls T R between
              (application.PasswordService.ValidateOn T R P h0).2)).1
        = (application.NewPasswordService (R.map (rules.Rule.toValidator T))).Validate P
      ∧ (application.PasswordService.ValidateOn T R P
            (application.PasswordService.ValidateOn.calls T R between
              (application.PasswordService.ValidateOn T R P h0).2)).2.results
          (application.PasswordService.ValidateOn T R P h0).1
        = (application.NewPasswordService (R.map (rules.Rule.toValidator T))).Validate P
      ∧ (application.PasswordService.ValidateOn T R P h0).1
        ≠ (application.PasswordService.ValidateOn T R P
            (application.PasswordService.ValidateOn.calls T R between
              (application.PasswordService.ValidateOn T R P h0).2)).1
      ∧ main.validators T = main.validatorRules.map (rules.Rule.toValidator T) := by
  obtain ⟨a1, a2, _, a4⟩ := application.validateOn_spec T R P h0
  obtain ⟨b1, b2⟩ := application.validateOn_calls_spec T R between
    (application.PasswordService.ValidateOn T R P h0).2
  obtain ⟨c1, c2, c3, _⟩ := application.validateOn_spec T R P
    (application.PasswordService.ValidateOn.calls T R between
      (application.PasswordService.ValidateOn T R P h0).2)
  rw [a4] at b1
  refine ⟨?_, ?_, ?_, ?_, rfl⟩
  · rw [a1, a2]
  · rw [c1, c2]
  · rw [a1, c3 _ (by omega), b2 _ (by omega), a2]
  · rw [a1, c1]
    omega
